import Mathlib

/-
Verification of the dependency-merging core of the `poetry plugin add` command
(src/poetry/console/commands/plugin/add.py, class PluginAddCommand).

The embedding translates `handle`, `create_pyproject_from_package` and
`get_existing_packages_from_input` into pure Lean functions.  External
collaborators (the requirement determiner `_determine_requirements`, the
constraint parser `parse_constraint`, the installed-package inventory, the
system environment and the update command) are passed in as parameters, and
the on-disk `pyproject.toml` at the environment root is modelled as an
explicit `Option Manifest` value threaded through the computation (the
manifest serializer is round-trip preserving, so manifest-value equality
stands for byte-for-byte file equality).
-/

namespace PluginAdd

/-- A TOML value that can appear as a field of a dependency constraint table:
a string (version, path, url, rev, markers, ...) or a list of strings
(extras). -/
inductive FieldVal where
  | s : String → FieldVal
  | l : List String → FieldVal
  deriving DecidableEq, Repr

/-- The on-disk encoding of one dependency constraint: either a plain scalar
(the collapsed single-field form) or a structured inline table, an ordered
list of key/value fields as tomlkit stores them. -/
inductive ConstraintRepr where
  | scalar : FieldVal → ConstraintRepr
  | structured : List (String × FieldVal) → ConstraintRepr
  deriving DecidableEq, Repr

/-- The dependency section of the manifest: an ordered mapping from
dependency name to constraint representation (tomlkit table, insertion
ordered, case-sensitive keys). -/
abbrev DepSection := List (String × ConstraintRepr)

/-- Python str.lower as used by the already-present check, applied
characterwise (ASCII case folding). -/
def lowerStr (s : String) : String :=
  String.mk (s.data.map Char.toLower)

/-- Assignment into a tomlkit table: if the key is already present its value
is replaced in place (position preserved), otherwise the pair is appended. -/
def upsert (sec : List (String × α)) (k : String) (v : α) : List (String × α) :=
  if sec.any (fun kv => kv.1 == k) then
    sec.map (fun kv => if kv.1 == k then (kv.1, v) else kv)
  else sec ++ [(k, v)]

/-- Dictionary lookup in an ordered key/value list (first match). -/
def alookup (sec : List (String × α)) (k : String) : Option α :=
  (sec.find? (fun kv => kv.1 == k)).map Prod.snd

/-- The `[tool.poetry]` content of a pyproject.toml file, restricted to the
fields the command reads and writes. -/
structure Manifest where
  name : String
  version : String
  description : String
  authors : List String
  dependencies : DepSection
  deriving DecidableEq, Repr

/-- One requirement spec of an installed package (`dep` in
`create_pyproject_from_package`), with the attributes the code queries. -/
structure Dep where
  name : String
  isVcs : Bool
  vcs : String
  sourceUrl : String
  reference : String
  isFile : Bool
  isDirectory : Bool
  prettyConstraint : String
  markerIsAny : Bool
  markerStr : String
  extras : List String
  deriving DecidableEq, Repr

/-- An installed package as enumerated from the system environment
(`InstalledRepository.load`), with its direct requirement specs. -/
structure InstalledPackage where
  name : String
  versionText : String
  requires : List Dep
  deriving DecidableEq, Repr

/-- The `ProjectPackage` built for the root package in `handle`:
`ProjectPackage(package.name, package.version)` starts with empty
description/authors and default python constraint, then receives the
installed package's requirement specs via `add_dependency`. -/
structure RootPkg where
  name : String
  versionText : String
  description : String
  authors : List String
  pythonVersions : String
  requires : List Dep
  deriving DecidableEq, Repr

/-- A resolved plugin spec as returned by the requirement determiner: the
dict `{"name": ..., "version"?: ..., source fields?...}` with the `name` key
split out and the remaining keys kept in insertion order. -/
structure PluginSpec where
  name : String
  fields : List (String × FieldVal)
  deriving DecidableEq, Repr

/-- The single-field collapse rule applied before storing a constraint:
`if len(constraint) == 1 and "version" in constraint: constraint =
constraint["version"]`. -/
def collapseTable (tbl : List (String × FieldVal)) : ConstraintRepr :=
  match tbl with
  | [(k, v)] =>
    if k == "version" then ConstraintRepr.scalar v else ConstraintRepr.structured [(k, v)]
  | t => ConstraintRepr.structured t

/-- The constraint table built in `create_pyproject_from_package` for one
requirement spec of the root package, collapse rule included. -/
def depConstraint (d : Dep) : ConstraintRepr :=
  let base : List (String × FieldVal) :=
    if d.isVcs then
      [(d.vcs, FieldVal.s d.sourceUrl)] ++
        (if d.reference ≠ "" then [("rev", FieldVal.s d.reference)] else [])
    else if d.isFile || d.isDirectory then [("path", FieldVal.s d.sourceUrl)]
    else [("version", FieldVal.s d.prettyConstraint)]
  let base := base ++ (if d.markerIsAny then [] else [("markers", FieldVal.s d.markerStr)])
  let base :=
    base ++
      (if d.extras = [] then []
       else [("extras", FieldVal.l (d.extras.mergeSort (fun a b => decide (a ≤ b))))])
  collapseTable base

/-- The dependency section synthesized by `create_pyproject_from_package`:
first `python` from the root package's python constraint, then one entry per
requirement spec. -/
def synthDeps (pkg : RootPkg) : DepSection :=
  pkg.requires.foldl (fun sec d => upsert sec d.name (depConstraint d))
    [("python", ConstraintRepr.scalar (FieldVal.s pkg.pythonVersions))]

/-- The manifest synthesized by `create_pyproject_from_package` from the
root package record when no pyproject.toml exists. -/
def synthesize (pkg : RootPkg) : Manifest :=
  { name := pkg.name
    version := pkg.versionText
    description := pkg.description
    authors := pkg.authors
    dependencies := synthDeps pkg }

/-- PluginAddCommand.create_pyproject_from_package: returns early (no-op)
when a pyproject.toml already exists; otherwise synthesizes one and writes
it.  Result: the on-disk content afterwards, and the list of writes
performed. -/
def create_pyproject_from_package (pkg : RootPkg) (disk : Option Manifest) :
    Manifest × List Manifest :=
  match disk with
  | some m => (m, [])
  | none => (synthesize pkg, [synthesize pkg])

/-- PluginAddCommand.get_existing_packages_from_input: for each requested
name in order, append it once for every key of the dependency section that
matches it case-insensitively. -/
def get_existing_packages_from_input (packages : List String) (depKeys : List String) :
    List String :=
  packages.flatMap (fun name =>
    (depKeys.filter (fun key => lowerStr key == lowerStr name)).map (fun _ => name))

/-- The filtering step of `handle` (lines 86-98): when a pyproject.toml
exists, requested names found already present are dropped; otherwise the
requested list passes through untouched. -/
def filteredPlugins (typed : List String) (disk : Option Manifest) : List String :=
  match disk with
  | some m =>
    let existing :=
      get_existing_packages_from_input typed (m.dependencies.map Prod.fst)
    typed.filter (fun p => !(existing.contains p))
  | none => typed

/-- The list of already-present names computed (and reported) by `handle`;
empty when no pyproject.toml exists, since the whole check is skipped. -/
def reportOf (typed : List String) (disk : Option Manifest) : List String :=
  match disk with
  | some m => get_existing_packages_from_input typed (m.dependencies.map Prod.fst)
  | none => []

/-- The inventory loop of `handle` (lines 115-127): skip packages in the
provider's excluded-package set, turn the package named "poetry" into the
root package record, and collect the rest into a plain repository. -/
def inventoryStep (excluded : List String) (acc : Option RootPkg × List InstalledPackage)
    (p : InstalledPackage) : Option RootPkg × List InstalledPackage :=
  if excluded.contains p.name then acc
  else if p.name == "poetry" then
    (some { name := p.name
            versionText := p.versionText
            description := ""
            authors := []
            pythonVersions := "*"
            requires := p.requires },
     acc.2)
  else (acc.1, acc.2 ++ [p])

/-- Folds the inventory loop over the installed packages. -/
def buildInventory (excluded : List String) (installed : List InstalledPackage) :
    Option RootPkg × List InstalledPackage :=
  installed.foldl (inventoryStep excluded) (none, [])

/-- root_package.python_versions is set from the system environment's
interpreter version: the first three components joined with dots. -/
def pythonVersionsJoin (versionInfo : List Nat) : String :=
  String.intercalate "." ((versionInfo.take 3).map toString)

/-- Environment-root resolution (lines 81-83): POETRY_HOME when set and
non-empty (Python string truthiness), else the system environment path. -/
def envDir (poetryHome : Option String) (systemPath : String) : String :=
  match poetryHome with
  | some s => if s.isEmpty then systemPath else s
  | none => systemPath

/-- Validation of one resolved plugin spec (lines 144-146): when the dict
carries a "version" entry it is passed to the external parse_constraint,
which raises on malformed syntax (and on a non-string value). -/
def validatePlugin (validC : String → Bool) (p : PluginSpec) : Bool :=
  match alookup p.fields "version" with
  | none => true
  | some (FieldVal.s v) => validC v
  | some (FieldVal.l _) => false

/-- The inline table built for one plugin in the merge loop (lines 148-153):
every dict item except "name", assigned in order. -/
def pluginTable (fields : List (String × FieldVal)) : List (String × FieldVal) :=
  fields.foldl (fun tbl kv => if kv.1 == "name" then tbl else upsert tbl kv.1 kv.2) []

/-- The constraint stored for one merged plugin, collapse rule included. -/
def pluginConstraint (fields : List (String × FieldVal)) : ConstraintRepr :=
  collapseTable (pluginTable fields)

/-- The error outcomes of `handle` that the model distinguishes: the crash
at line 129 when no root package was found (the spec's
RootPackageMissingError), and the parse_constraint failure at line 146 for a
malformed version constraint (the spec's InvalidConstraintError). -/
inductive HandleError where
  | rootPackageMissing : HandleError
  | invalidConstraint : PluginSpec → HandleError
  deriving DecidableEq, Repr

/-- The merge loop of `handle` (lines 143-159) over the in-memory manifest:
validate each spec, build and collapse its constraint table, upsert it under
the spec's canonical name, and record the name.  A validation failure aborts
the loop (the in-memory mutations are discarded, nothing was written). -/
def mergePlugins (validC : String → Bool) (m : Manifest) (names : List String) :
    List PluginSpec → Except PluginSpec (Manifest × List String)
  | [] => Except.ok (m, names)
  | p :: rest =>
    if validatePlugin validC p then
      mergePlugins validC
        { m with dependencies := upsert m.dependencies p.name (pluginConstraint p.fields) }
        (names ++ [p.name]) rest
    else Except.error p

/-- The inputs of one `plugin add` invocation that come from the
environment rather than from collaborators. -/
structure Config where
  poetryHome : Option String
  systemPath : String
  versionInfo : List Nat
  excluded : List String
  installed : List InstalledPackage
  typed : List String
  dryRun : Bool

/-- The observable outcome of one invocation: final on-disk manifest,
chronological list of manifest writes, the already-present names computed
for the report, the argument handed to the requirement determiner (none if
it was never invoked), the delegate invocations (scoped names and dry-run
flag), and the exit status or error. -/
structure HandleResult where
  disk : Option Manifest
  writes : List Manifest
  report : List String
  determinedWith : Option (List String)
  delegated : List (List String × Bool)
  exit : Except HandleError Int

/-- PluginAddCommand.handle, with the external collaborators as parameters:
`determine` is InitCommand._determine_requirements, `validC` is
parse_constraint (true = parses), `delegate` is the update command run
against the final manifest. -/
def handle (cfg : Config) (determine : List String → List PluginSpec)
    (validC : String → Bool) (delegate : Manifest → List String → Bool → Int)
    (disk : Option Manifest) : HandleResult :=
  let plugins0 := filteredPlugins cfg.typed disk
  let report := reportOf cfg.typed disk
  if plugins0.isEmpty then
    ⟨disk, [], report, none, [], Except.ok 0⟩
  else
    let plugins := determine plugins0
    match (buildInventory cfg.excluded cfg.installed).1 with
    | none => ⟨disk, [], report, some plugins0, [], Except.error HandleError.rootPackageMissing⟩
    | some root0 =>
      let root : RootPkg := { root0 with pythonVersions := pythonVersionsJoin cfg.versionInfo }
      let cp := create_pyproject_from_package root disk
      match mergePlugins validC cp.1 [] plugins with
      | Except.error p =>
        ⟨some cp.1, cp.2, report, some plugins0, [],
          Except.error (HandleError.invalidConstraint p)⟩
      | Except.ok x =>
        ⟨some x.1, cp.2 ++ [x.1], report, some plugins0, [(x.2, cfg.dryRun)],
          Except.ok (delegate x.1 x.2 cfg.dryRun)⟩

/-- Unfolding lemma: upsert into the empty table appends. -/
theorem upsert_nil (k : String) (v : α) : upsert ([] : List (String × α)) k v = [(k, v)] := by
  simp [upsert]

/-- Unfolding lemma: upsert into a non-empty table either replaces the head
(and any later occurrence of the key) or recurses past it. -/
theorem upsert_cons (kv : String × α) (sec : List (String × α)) (k : String) (v : α) :
    upsert (kv :: sec) k v =
      if kv.1 == k then
        (kv.1, v) :: sec.map (fun kv2 => if kv2.1 == k then (kv2.1, v) else kv2)
      else kv :: upsert sec k v := by
  by_cases h : kv.1 = k
  · have hb : (kv.1 == k) = true := by simpa [beq_iff_eq] using h
    by_cases h2 : sec.any (fun kv2 => kv2.1 == k) <;>
      simp [upsert, hb, h, h2]
  · have hb : (kv.1 == k) = false := by simpa [beq_iff_eq] using h
    by_cases h2 : sec.any (fun kv2 => kv2.1 == k) <;>
      simp [upsert, hb, h, h2]

/-- Dictionary lookup on a cons cell. -/
theorem alookup_cons (kv : String × α) (sec : List (String × α)) (k : String) :
    alookup (kv :: sec) k = if kv.1 == k then some kv.2 else alookup sec k := by
  by_cases h : kv.1 == k <;> simp [alookup, List.find?_cons, h]

/-- The value-replacing map inside upsert leaves every other key's binding
unchanged. -/
theorem alookup_map_keep (sec : List (String × α)) (k a : String) (v : α) (h : a ≠ k) :
    alookup (sec.map (fun kv => if kv.1 == k then (kv.1, v) else kv)) a = alookup sec a := by
  induction sec with
  | nil => rfl
  | cons kv rest ih =>
    simp only [beq_iff_eq] at ih
    by_cases hk : kv.1 = k
    · have hka : k ≠ a := fun hc => h hc.symm
      simp [alookup_cons, hk, hka, ih]
    · simp [alookup_cons, hk, ih]

/-- After an upsert, looking up the upserted key yields the new value. -/
theorem alookup_upsert_self (sec : List (String × α)) (k : String) (v : α) :
    alookup (upsert sec k v) k = some v := by
  induction sec with
  | nil => simp [upsert_nil, alookup_cons]
  | cons kv rest ih =>
    rw [upsert_cons]
    by_cases h : kv.1 = k
    · simp [alookup_cons, h]
    · simp [alookup_cons, h, ih]

/-- After an upsert, every other key's binding is unchanged. -/
theorem alookup_upsert_ne (sec : List (String × α)) (k a : String) (v : α) (h : a ≠ k) :
    alookup (upsert sec k v) a = alookup sec a := by
  induction sec with
  | nil =>
    have hne : k ≠ a := fun hc => h hc.symm
    simp [upsert_nil, alookup_cons, hne]
  | cons kv rest ih =>
    rw [upsert_cons]
    by_cases hk : kv.1 = k
    · have hka : k ≠ a := fun hc => h hc.symm
      have hmap := alookup_map_keep rest k a v h
      simp only [beq_iff_eq] at hmap
      simp [alookup_cons, hk, hka, hmap]
    · simp [alookup_cons, hk, ih]

/-- Upsert preserves key membership. -/
theorem key_mem_upsert (sec : List (String × α)) (k a : String) (v : α)
    (h : a ∈ sec.map Prod.fst) : a ∈ (upsert sec k v).map Prod.fst := by
  unfold upsert
  split
  · rw [List.map_map]
    have : sec.map (Prod.fst ∘ fun kv => if kv.1 == k then (kv.1, v) else kv) =
        sec.map Prod.fst := by
      apply List.map_congr_left
      intro kv _
      by_cases hk : kv.1 = k <;> simp [hk]
    rw [this]; exact h
  · rw [List.map_append]; exact List.mem_append_left _ h

/-- The upserted key is a key of the result. -/
theorem self_key_mem_upsert (sec : List (String × α)) (k : String) (v : α) :
    k ∈ (upsert sec k v).map Prod.fst := by
  unfold upsert
  split
  · rename_i hany
    rw [List.any_eq_true] at hany
    obtain ⟨kv, hkv, hbeq⟩ := hany
    rw [beq_iff_eq] at hbeq
    rw [List.map_map]
    refine List.mem_map.mpr ⟨kv, hkv, ?_⟩
    simp [hbeq]
  · rw [List.map_append]
    exact List.mem_append_right _ (by simp)

/-- Upsert preserves a property of all stored values when the inserted value
has it. -/
theorem upsert_forall {P : α → Prop} (sec : List (String × α)) (k : String) (v : α)
    (hs : ∀ kv ∈ sec, P kv.2) (hv : P v) : ∀ kv ∈ upsert sec k v, P kv.2 := by
  unfold upsert
  split
  · intro kv hkv
    obtain ⟨kv0, h0, heq⟩ := List.mem_map.mp hkv
    by_cases hk : kv0.1 == k
    · rw [if_pos hk] at heq
      rw [← heq]
      exact hv
    · rw [if_neg hk] at heq
      rw [← heq]
      exact hs kv0 h0
  · intro kv hkv
    rcases List.mem_append.mp hkv with h | h
    · exact hs kv h
    · simp only [List.mem_singleton] at h
      rw [h]
      exact hv

/-- Membership in the already-present list: a requested name is in it
exactly when it was requested and some dependency key matches it
case-insensitively. -/
theorem mem_get_existing_iff (packages depKeys : List String) (n : String) :
    n ∈ get_existing_packages_from_input packages depKeys ↔
      n ∈ packages ∧ ∃ k ∈ depKeys, lowerStr k = lowerStr n := by
  unfold get_existing_packages_from_input
  rw [List.mem_flatMap]
  constructor
  · rintro ⟨a, ha, hmem⟩
    obtain ⟨k, hk, heq⟩ := List.mem_map.mp hmem
    obtain ⟨hkd, hkl⟩ := List.mem_filter.mp hk
    rw [beq_iff_eq] at hkl
    subst heq
    exact ⟨ha, k, hkd, hkl⟩
  · rintro ⟨hn, k, hkd, hkl⟩
    refine ⟨n, hn, List.mem_map.mpr ⟨k, List.mem_filter.mpr ⟨hkd, ?_⟩, rfl⟩⟩
    rw [beq_iff_eq]
    exact hkl

/-- The inventory fold never produces a root package when no installed
package is named "poetry". -/
theorem inventory_fold_fst_none (excluded : List String) (installed : List InstalledPackage)
    (acc : Option RootPkg × List InstalledPackage)
    (h : ∀ p ∈ installed, p.name ≠ "poetry") :
    (installed.foldl (inventoryStep excluded) acc).1 = acc.1 := by
  induction installed generalizing acc with
  | nil => rfl
  | cons p rest ih =>
    have hp : p.name ≠ "poetry" := h p (List.mem_cons_self p rest)
    have hrest : ∀ q ∈ rest, q.name ≠ "poetry" := fun q hq => h q (List.mem_cons_of_mem p hq)
    show (rest.foldl (inventoryStep excluded) (inventoryStep excluded acc p)).1 = acc.1
    rw [ih _ hrest]
    unfold inventoryStep
    by_cases h1 : excluded.contains p.name
    · rw [if_pos h1]
    · rw [if_neg h1, if_neg (by simpa [beq_iff_eq] using hp)]

/-- A successful merge loop records exactly the canonical names of the
processed specs, in order, appended to the accumulator. -/
theorem mergePlugins_ok_names (validC : String → Bool) (ps : List PluginSpec)
    (m : Manifest) (names : List String) (m2 : Manifest) (ns : List String)
    (h : mergePlugins validC m names ps = Except.ok (m2, ns)) :
    ns = names ++ ps.map PluginSpec.name := by
  induction ps generalizing m names with
  | nil =>
    simp only [mergePlugins, Except.ok.injEq, Prod.mk.injEq] at h
    simp [h.2]
  | cons p rest ih =>
    unfold mergePlugins at h
    by_cases hv : validatePlugin validC p = true
    · rw [if_pos hv] at h
      have := ih _ _ h
      simp [this]
    · rw [if_neg hv] at h
      cases h

/-- A successful merge loop only grows the key set of the dependency
section. -/
theorem mergePlugins_ok_keys_mono (validC : String → Bool) (ps : List PluginSpec)
    (m : Manifest) (names : List String) (m2 : Manifest) (ns : List String)
    (h : mergePlugins validC m names ps = Except.ok (m2, ns)) (a : String)
    (ha : a ∈ m.dependencies.map Prod.fst) : a ∈ m2.dependencies.map Prod.fst := by
  induction ps generalizing m names with
  | nil =>
    simp only [mergePlugins, Except.ok.injEq, Prod.mk.injEq] at h
    rw [← h.1]
    exact ha
  | cons p rest ih =>
    unfold mergePlugins at h
    by_cases hv : validatePlugin validC p = true
    · rw [if_pos hv] at h
      exact ih _ _ h (key_mem_upsert _ _ _ _ ha)
    · rw [if_neg hv] at h
      cases h

/-- After a successful merge loop, every processed spec's canonical name is
a key of the final dependency section. -/
theorem mergePlugins_ok_spec_key (validC : String → Bool) (ps : List PluginSpec)
    (m : Manifest) (names : List String) (m2 : Manifest) (ns : List String)
    (h : mergePlugins validC m names ps = Except.ok (m2, ns)) :
    ∀ p ∈ ps, p.name ∈ m2.dependencies.map Prod.fst := by
  induction ps generalizing m names with
  | nil => intro p hp; cases hp
  | cons p rest ih =>
    unfold mergePlugins at h
    by_cases hv : validatePlugin validC p = true
    · rw [if_pos hv] at h
      intro q hq
      rcases List.mem_cons.mp hq with hq | hq
      · subst hq
        exact mergePlugins_ok_keys_mono _ _ _ _ _ _ h _ (self_key_mem_upsert _ _ _)
      · exact ih _ _ h q hq
    · rw [if_neg hv] at h
      cases h

/-- A merge loop whose specs all have names different from a given key
leaves that key's binding unchanged. -/
theorem mergePlugins_ok_alookup_frozen (validC : String → Bool) (ps : List PluginSpec)
    (m : Manifest) (names : List String) (m2 : Manifest) (ns : List String)
    (h : mergePlugins validC m names ps = Except.ok (m2, ns)) (a : String)
    (hne : ∀ q ∈ ps, q.name ≠ a) :
    alookup m2.dependencies a = alookup m.dependencies a := by
  induction ps generalizing m names with
  | nil =>
    simp only [mergePlugins, Except.ok.injEq, Prod.mk.injEq] at h
    rw [← h.1]
  | cons p rest ih =>
    unfold mergePlugins at h
    by_cases hv : validatePlugin validC p = true
    · rw [if_pos hv] at h
      rw [ih _ _ h (fun q hq => hne q (List.mem_cons_of_mem p hq))]
      exact alookup_upsert_ne _ _ _ _
        (fun hc => hne p (List.mem_cons_self p rest) hc.symm)
    · rw [if_neg hv] at h
      cases h

/-- After a successful merge loop, the binding of a spec whose name does not
recur later in the list is exactly that spec's collapsed constraint. -/
theorem mergePlugins_ok_alookup_last (validC : String → Bool) (ps1 : List PluginSpec)
    (s : PluginSpec) (ps2 : List PluginSpec) (m : Manifest) (names : List String)
    (m2 : Manifest) (ns : List String)
    (h : mergePlugins validC m names (ps1 ++ s :: ps2) = Except.ok (m2, ns))
    (hlast : ∀ q ∈ ps2, q.name ≠ s.name) :
    alookup m2.dependencies s.name = some (pluginConstraint s.fields) := by
  induction ps1 generalizing m names with
  | nil =>
    rw [List.nil_append] at h
    unfold mergePlugins at h
    by_cases hv : validatePlugin validC s = true
    · rw [if_pos hv] at h
      rw [mergePlugins_ok_alookup_frozen _ _ _ _ _ _ h _ hlast]
      exact alookup_upsert_self _ _ _
    · rw [if_neg hv] at h
      cases h
  | cons p ps1 ih =>
    rw [List.cons_append] at h
    unfold mergePlugins at h
    by_cases hv : validatePlugin validC p = true
    · rw [if_pos hv] at h
      exact ih _ _ h
    · rw [if_neg hv] at h
      cases h

/-- The merge loop fails (before any write) whenever some spec in the list
fails validation. -/
theorem mergePlugins_error_of_invalid (validC : String → Bool) (ps : List PluginSpec)
    (m : Manifest) (names : List String)
    (h : ∃ p ∈ ps, validatePlugin validC p = false) :
    ∃ q, mergePlugins validC m names ps = Except.error q := by
  induction ps generalizing m names with
  | nil => simp at h
  | cons p rest ih =>
    by_cases hv : validatePlugin validC p = true
    · have hrest : ∃ q ∈ rest, validatePlugin validC q = false := by
        rcases h with ⟨q, hq, hqf⟩
        rcases List.mem_cons.mp hq with hq | hq
        · subst hq
          rw [hv] at hqf
          cases hqf
        · exact ⟨q, hq, hqf⟩
      obtain ⟨q, hq⟩ := ih _ _ hrest
      refine ⟨q, ?_⟩
      unfold mergePlugins
      rw [if_pos hv]
      exact hq
    · refine ⟨p, ?_⟩
      unfold mergePlugins
      rw [if_neg hv]

/-- A successful merge loop keeps every stored constraint's property when
each merged constraint has it. -/
theorem mergePlugins_ok_forall (validC : String → Bool) (P : ConstraintRepr → Prop)
    (ps : List PluginSpec) (m : Manifest) (names : List String) (m2 : Manifest)
    (ns : List String) (h : mergePlugins validC m names ps = Except.ok (m2, ns))
    (hm : ∀ kv ∈ m.dependencies, P kv.2)
    (hp : ∀ p : PluginSpec, P (pluginConstraint p.fields)) :
    ∀ kv ∈ m2.dependencies, P kv.2 := by
  induction ps generalizing m names with
  | nil =>
    simp only [mergePlugins, Except.ok.injEq, Prod.mk.injEq] at h
    rw [← h.1]
    exact hm
  | cons p rest ih =>
    unfold mergePlugins at h
    by_cases hv : validatePlugin validC p = true
    · rw [if_pos hv] at h
      exact ih _ _ h (upsert_forall _ _ _ hm (hp p))
    · rw [if_neg hv] at h
      cases h

/-- Case analysis of handle: when the filtered request list is empty the
command returns 0 at line 100, with no determiner call, no write and no
delegation. -/
theorem handle_eq_of_empty (cfg : Config) (determine : List String → List PluginSpec)
    (validC : String → Bool) (delegate : Manifest → List String → Bool → Int)
    (disk : Option Manifest) (h : filteredPlugins cfg.typed disk = []) :
    handle cfg determine validC delegate disk =
      ⟨disk, [], reportOf cfg.typed disk, none, [], Except.ok 0⟩ := by
  unfold handle
  rw [h]
  rfl

/-- Case analysis of handle: requests survive the filter but no installed
package yields a root package, so line 129 fails before any synthesis or
merge. -/
theorem handle_eq_of_noRoot (cfg : Config) (determine : List String → List PluginSpec)
    (validC : String → Bool) (delegate : Manifest → List String → Bool → Int)
    (disk : Option Manifest) (h1 : filteredPlugins cfg.typed disk ≠ [])
    (h2 : (buildInventory cfg.excluded cfg.installed).1 = none) :
    handle cfg determine validC delegate disk =
      ⟨disk, [], reportOf cfg.typed disk, some (filteredPlugins cfg.typed disk), [],
        Except.error HandleError.rootPackageMissing⟩ := by
  unfold handle
  rw [if_neg (by simpa [List.isEmpty_iff] using h1), h2]

/-- Case analysis of handle: the merge loop hits an invalid constraint; the
synthesis write (if any) already happened, the merge write did not. -/
theorem handle_eq_of_mergeError (cfg : Config) (determine : List String → List PluginSpec)
    (validC : String → Bool) (delegate : Manifest → List String → Bool → Int)
    (disk : Option Manifest) (root0 : RootPkg) (p : PluginSpec)
    (h1 : filteredPlugins cfg.typed disk ≠ [])
    (h2 : (buildInventory cfg.excluded cfg.installed).1 = some root0)
    (h3 : mergePlugins validC
        (create_pyproject_from_package
          { root0 with pythonVersions := pythonVersionsJoin cfg.versionInfo } disk).1 []
        (determine (filteredPlugins cfg.typed disk)) = Except.error p) :
    handle cfg determine validC delegate disk =
      ⟨some (create_pyproject_from_package
          { root0 with pythonVersions := pythonVersionsJoin cfg.versionInfo } disk).1,
        (create_pyproject_from_package
          { root0 with pythonVersions := pythonVersionsJoin cfg.versionInfo } disk).2,
        reportOf cfg.typed disk, some (filteredPlugins cfg.typed disk), [],
        Except.error (HandleError.invalidConstraint p)⟩ := by
  unfold handle
  rw [if_neg (by simpa [List.isEmpty_iff] using h1)]
  simp only [h2, h3]

/-- Case analysis of handle: the merge loop succeeds; the merged manifest is
written last and the update command is delegated to. -/
theorem handle_eq_of_ok (cfg : Config) (determine : List String → List PluginSpec)
    (validC : String → Bool) (delegate : Manifest → List String → Bool → Int)
    (disk : Option Manifest) (root0 : RootPkg) (m2 : Manifest) (ns : List String)
    (h1 : filteredPlugins cfg.typed disk ≠ [])
    (h2 : (buildInventory cfg.excluded cfg.installed).1 = some root0)
    (h3 : mergePlugins validC
        (create_pyproject_from_package
          { root0 with pythonVersions := pythonVersionsJoin cfg.versionInfo } disk).1 []
        (determine (filteredPlugins cfg.typed disk)) = Except.ok (m2, ns)) :
    handle cfg determine validC delegate disk =
      ⟨some m2,
        (create_pyproject_from_package
          { root0 with pythonVersions := pythonVersionsJoin cfg.versionInfo } disk).2 ++ [m2],
        reportOf cfg.typed disk, some (filteredPlugins cfg.typed disk),
        [(ns, cfg.dryRun)], Except.ok (delegate m2 ns cfg.dryRun)⟩ := by
  unfold handle
  rw [if_neg (by simpa [List.isEmpty_iff] using h1)]
  simp only [h2, h3]

/-- Whatever branch handle takes, the already-present names it computes are
reportOf. -/
theorem handle_report (cfg : Config) (determine : List String → List PluginSpec)
    (validC : String → Bool) (delegate : Manifest → List String → Bool → Int)
    (disk : Option Manifest) :
    (handle cfg determine validC delegate disk).report = reportOf cfg.typed disk := by
  by_cases h1 : filteredPlugins cfg.typed disk = []
  · rw [handle_eq_of_empty _ _ _ _ _ h1]
  · cases h2 : (buildInventory cfg.excluded cfg.installed).1 with
    | none => rw [handle_eq_of_noRoot _ _ _ _ _ h1 h2]
    | some root0 =>
      cases h3 : mergePlugins validC
          (create_pyproject_from_package
            { root0 with pythonVersions := pythonVersionsJoin cfg.versionInfo } disk).1 []
          (determine (filteredPlugins cfg.typed disk)) with
      | error p => rw [handle_eq_of_mergeError _ _ _ _ _ _ _ h1 h2 h3]
      | ok x =>
        cases x with
        | mk m2 ns => rw [handle_eq_of_ok _ _ _ _ _ _ _ _ h1 h2 h3]

/-- The requirement determiner is either never invoked or invoked exactly
on the filtered request list. -/
theorem handle_determinedWith (cfg : Config) (determine : List String → List PluginSpec)
    (validC : String → Bool) (delegate : Manifest → List String → Bool → Int)
    (disk : Option Manifest) :
    (handle cfg determine validC delegate disk).determinedWith = none ∨
      (handle cfg determine validC delegate disk).determinedWith =
        some (filteredPlugins cfg.typed disk) := by
  by_cases h1 : filteredPlugins cfg.typed disk = []
  · rw [handle_eq_of_empty _ _ _ _ _ h1]
    exact Or.inl rfl
  · cases h2 : (buildInventory cfg.excluded cfg.installed).1 with
    | none =>
      rw [handle_eq_of_noRoot _ _ _ _ _ h1 h2]
      exact Or.inr rfl
    | some root0 =>
      cases h3 : mergePlugins validC
          (create_pyproject_from_package
            { root0 with pythonVersions := pythonVersionsJoin cfg.versionInfo } disk).1 []
          (determine (filteredPlugins cfg.typed disk)) with
      | error p =>
        rw [handle_eq_of_mergeError _ _ _ _ _ _ _ h1 h2 h3]
        exact Or.inr rfl
      | ok x =>
        cases x with
        | mk m2 ns =>
          rw [handle_eq_of_ok _ _ _ _ _ _ _ _ h1 h2 h3]
          exact Or.inr rfl

/-- The filtered request list is empty exactly when every requested name
matches some dependency key case-insensitively (pre-existing manifest). -/
theorem filtered_eq_nil_iff (typed : List String) (m : Manifest) :
    filteredPlugins typed (some m) = [] ↔
      ∀ t ∈ typed, ∃ k ∈ m.dependencies.map Prod.fst, lowerStr k = lowerStr t := by
  unfold filteredPlugins
  rw [List.filter_eq_nil_iff]
  constructor
  · intro h t ht
    have hmem := h t ht
    simp at hmem
    exact ((mem_get_existing_iff _ _ _).mp hmem).2
  · intro h t ht
    have hmem : t ∈ get_existing_packages_from_input typed (m.dependencies.map Prod.fst) :=
      (mem_get_existing_iff _ _ _).mpr ⟨ht, h t ht⟩
    simp
    exact hmem

/-- A requested name that matches a key is in the computed report. -/
theorem mem_report_of_match (typed : List String) (m : Manifest) (t : String)
    (ht : t ∈ typed) (hmatch : ∃ k ∈ m.dependencies.map Prod.fst, lowerStr k = lowerStr t) :
    t ∈ reportOf typed (some m) :=
  (mem_get_existing_iff _ _ _).mpr ⟨ht, hmatch⟩

/-- A requested name with no case-insensitive key match survives the
filter. -/
theorem mem_filtered_of_no_match (typed : List String) (m : Manifest) (t : String)
    (ht : t ∈ typed)
    (hmatch : ¬ ∃ k ∈ m.dependencies.map Prod.fst, lowerStr k = lowerStr t) :
    t ∈ filteredPlugins typed (some m) := by
  unfold filteredPlugins
  rw [List.mem_filter]
  refine ⟨ht, ?_⟩
  have hnot : t ∉ get_existing_packages_from_input typed (m.dependencies.map Prod.fst) :=
    fun hc => hmatch ((mem_get_existing_iff _ _ _).mp hc).2
  simp
  exact hnot

/-- A requested name dropped by the filter has a case-insensitive key
match. -/
theorem match_of_not_filtered (typed : List String) (m : Manifest) (t : String)
    (ht : t ∈ typed) (hf : t ∉ filteredPlugins typed (some m)) :
    ∃ k ∈ m.dependencies.map Prod.fst, lowerStr k = lowerStr t := by
  by_contra hc
  exact hf (mem_filtered_of_no_match typed m t ht hc)

/-- The collapse rule never leaves a structured record whose only field is
version. -/
theorem collapseTable_not_single_version (tbl : List (String × FieldVal)) (x : FieldVal) :
    collapseTable tbl ≠ ConstraintRepr.structured [("version", x)] := by
  rcases tbl with _ | ⟨⟨k, v⟩, _ | ⟨b, t⟩⟩
  · simp [collapseTable]
  · by_cases h : k = "version"
    · simp [collapseTable, h]
    · simp [collapseTable, h]
  · simp [collapseTable]

/-- No constraint produced for a root-package requirement is a structured
single-version record. -/
theorem depConstraint_not_single_version (d : Dep) (x : FieldVal) :
    depConstraint d ≠ ConstraintRepr.structured [("version", x)] :=
  collapseTable_not_single_version _ _

/-- No constraint produced for a merged plugin is a structured
single-version record. -/
theorem pluginConstraint_not_single_version (fields : List (String × FieldVal)) (x : FieldVal) :
    pluginConstraint fields ≠ ConstraintRepr.structured [("version", x)] :=
  collapseTable_not_single_version _ _

/-- The synthesis fold preserves a property of stored constraints. -/
theorem foldl_upsert_forall {P : ConstraintRepr → Prop} (l : List Dep) (init : DepSection)
    (hi : ∀ kv ∈ init, P kv.2) (hd : ∀ d, P (depConstraint d)) :
    ∀ kv ∈ l.foldl (fun sec d => upsert sec d.name (depConstraint d)) init, P kv.2 := by
  induction l generalizing init with
  | nil => exact hi
  | cons d rest ih => exact ih _ (upsert_forall _ _ _ hi (hd d))

/-- Every constraint in a synthesized dependency section has a property
enjoyed by the python entry and by every requirement constraint. -/
theorem synthDeps_forall {P : ConstraintRepr → Prop} (pkg : RootPkg)
    (hpy : P (ConstraintRepr.scalar (FieldVal.s pkg.pythonVersions)))
    (hd : ∀ d, P (depConstraint d)) : ∀ kv ∈ synthDeps pkg, P kv.2 := by
  unfold synthDeps
  refine foldl_upsert_forall _ _ ?_ hd
  intro kv hkv
  rcases List.mem_singleton.mp hkv with h
  rw [h]
  exact hpy

/-- Characterization of the filtered request list: a name survives exactly
when it was requested and no dependency key matches it case-insensitively. -/
theorem mem_filtered_iff (typed : List String) (m : Manifest) (n : String) :
    n ∈ filteredPlugins typed (some m) ↔
      n ∈ typed ∧ ¬ ∃ k ∈ m.dependencies.map Prod.fst, lowerStr k = lowerStr n := by
  constructor
  · intro h
    have ht : n ∈ typed := by
      have h2 := h
      unfold filteredPlugins at h2
      exact List.mem_of_mem_filter h2
    refine ⟨ht, fun hmatch => ?_⟩
    have hmem : n ∈ get_existing_packages_from_input typed (m.dependencies.map Prod.fst) :=
      (mem_get_existing_iff _ _ _).mpr ⟨ht, hmatch⟩
    unfold filteredPlugins at h
    rw [List.mem_filter] at h
    have h3 := h.2
    simp at h3
    exact h3 hmem
  · rintro ⟨ht, hmatch⟩
    exact mem_filtered_of_no_match typed m n ht hmatch

/-- A plain version-only requirement spec, for concrete runs. -/
def sampleDep (n c : String) : Dep :=
  ⟨n, false, "", "", "", false, false, c, true, "", []⟩

/-- The installed poetry package of the concrete runs. -/
def poetryPkg : InstalledPackage :=
  ⟨"poetry", "1.2.0", [sampleDep "click" ">=7.0"]⟩

/-- A baseline configuration for concrete runs. -/
def baseCfg : Config :=
  ⟨none, "/opt/poetry", [3, 9, 1], ["pip", "wheel"], [poetryPkg], ["mkdocs"], false⟩

/-- A pre-existing manifest that already declares mkdocs. -/
def mkdocsManifest : Manifest :=
  ⟨"poetry", "1.2.0", "", [], [("mkdocs", ConstraintRepr.scalar (FieldVal.s "^1.0"))]⟩

/-- C5: if after already-present filtering no requested plugins remain, the
command returns exit status 0 at line 100, the manifest on disk is
unchanged, nothing is ever written, and neither the requirement determiner
nor the resolution delegate is invoked. -/
theorem empty_filtered_request_terminal (cfg : Config)
    (determine : List String → List PluginSpec) (validC : String → Bool)
    (delegate : Manifest → List String → Bool → Int) (disk : Option Manifest)
    (h : filteredPlugins cfg.typed disk = []) :
    (handle cfg determine validC delegate disk).exit = Except.ok 0 ∧
    (handle cfg determine validC delegate disk).disk = disk ∧
    (handle cfg determine validC delegate disk).writes = [] ∧
    (handle cfg determine validC delegate disk).delegated = [] ∧
    (handle cfg determine validC delegate disk).determinedWith = none := by
  rw [handle_eq_of_empty cfg determine validC delegate disk h]
  exact ⟨rfl, rfl, rfl, rfl, rfl⟩

/-- C5 witness: requesting MkDocs against a manifest that already has
mkdocs filters everything, exits 0 and touches nothing. -/
theorem empty_filtered_request_terminal_witness :
    (handle { baseCfg with typed := ["MkDocs"] } (fun _ => []) (fun _ => true)
        (fun _ _ _ => 37) (some mkdocsManifest)).exit = Except.ok 0 ∧
    (handle { baseCfg with typed := ["MkDocs"] } (fun _ => []) (fun _ => true)
        (fun _ _ _ => 37) (some mkdocsManifest)).disk = some mkdocsManifest ∧
    (handle { baseCfg with typed := ["MkDocs"] } (fun _ => []) (fun _ => true)
        (fun _ _ _ => 37) (some mkdocsManifest)).delegated = [] := by
  have h := empty_filtered_request_terminal { baseCfg with typed := ["MkDocs"] }
    (fun _ => []) (fun _ => true) (fun _ _ _ => 37) (some mkdocsManifest) (by rfl)
  exact ⟨h.1, h.2.1, h.2.2.2.1⟩

/-- C8: when no installed package is named "poetry" and work remains after
filtering, the operation fails with the root-package-missing failure at
line 129 before any manifest is synthesized, written, merged or delegated. -/
theorem root_package_missing_aborts (cfg : Config)
    (determine : List String → List PluginSpec) (validC : String → Bool)
    (delegate : Manifest → List String → Bool → Int) (disk : Option Manifest)
    (h1 : filteredPlugins cfg.typed disk ≠ [])
    (h2 : ∀ p ∈ cfg.installed, p.name ≠ "poetry") :
    (handle cfg determine validC delegate disk).exit =
      Except.error HandleError.rootPackageMissing ∧
    (handle cfg determine validC delegate disk).writes = [] ∧
    (handle cfg determine validC delegate disk).disk = disk ∧
    (handle cfg determine validC delegate disk).delegated = [] := by
  have hroot : (buildInventory cfg.excluded cfg.installed).1 = none :=
    inventory_fold_fst_none cfg.excluded cfg.installed (none, []) h2
  rw [handle_eq_of_noRoot cfg determine validC delegate disk h1 hroot]
  exact ⟨rfl, rfl, rfl, rfl⟩

/-- C8 witness: with only requests installed (no poetry), adding mkdocs
fails with the root-package-missing failure and writes nothing. -/
theorem root_package_missing_aborts_witness :
    (handle { baseCfg with installed := [⟨"requests", "2.28.0", []⟩] }
        (fun _ => [⟨"mkdocs", [("version", FieldVal.s "^1.0")]⟩]) (fun _ => true)
        (fun _ _ _ => 0) none).exit = Except.error HandleError.rootPackageMissing ∧
    (handle { baseCfg with installed := [⟨"requests", "2.28.0", []⟩] }
        (fun _ => [⟨"mkdocs", [("version", FieldVal.s "^1.0")]⟩]) (fun _ => true)
        (fun _ _ _ => 0) none).writes = [] := by
  have h := root_package_missing_aborts { baseCfg with installed := [⟨"requests", "2.28.0", []⟩] }
    (fun _ => [⟨"mkdocs", [("version", FieldVal.s "^1.0")]⟩]) (fun _ => true)
    (fun _ _ _ => 0) none (by decide) (by decide)
  exact ⟨h.1, h.2.1⟩

/-- C1: with a pre-existing manifest, a requested name ends up in the
already-present report exactly when some key of the dependency section
matches it case-insensitively; the determiner receives exactly the
filtered request list, and each requested name is excluded from it
precisely when it matches a key; and on a run that reaches delegation every
determined spec is merged into the final dependency section under its
canonical name. -/
theorem already_present_partition (cfg : Config)
    (determine : List String → List PluginSpec) (validC : String → Bool)
    (delegate : Manifest → List String → Bool → Int) (m : Manifest) :
    (∀ n, n ∈ (handle cfg determine validC delegate (some m)).report ↔
        n ∈ cfg.typed ∧ ∃ k ∈ m.dependencies.map Prod.fst, lowerStr k = lowerStr n) ∧
    ((handle cfg determine validC delegate (some m)).determinedWith = none ∨
      (handle cfg determine validC delegate (some m)).determinedWith =
        some (filteredPlugins cfg.typed (some m))) ∧
    (∀ n ∈ cfg.typed,
      ((∃ k ∈ m.dependencies.map Prod.fst, lowerStr k = lowerStr n) →
        n ∉ filteredPlugins cfg.typed (some m)) ∧
      ((¬ ∃ k ∈ m.dependencies.map Prod.fst, lowerStr k = lowerStr n) →
        n ∈ filteredPlugins cfg.typed (some m))) ∧
    (∀ m2 ns, (handle cfg determine validC delegate (some m)).disk = some m2 →
      (handle cfg determine validC delegate (some m)).delegated = [(ns, cfg.dryRun)] →
      ∀ s ∈ determine (filteredPlugins cfg.typed (some m)),
        s.name ∈ m2.dependencies.map Prod.fst) := by
  refine ⟨?_, handle_determinedWith cfg determine validC delegate (some m), ?_, ?_⟩
  · intro n
    rw [handle_report]
    exact mem_get_existing_iff cfg.typed (m.dependencies.map Prod.fst) n
  · intro n hn
    constructor
    · intro hmatch hc
      exact ((mem_filtered_iff cfg.typed m n).mp hc).2 hmatch
    · intro hmatch
      exact (mem_filtered_iff cfg.typed m n).mpr ⟨hn, hmatch⟩
  · intro m2 ns hdisk hdel s hs
    by_cases h1 : filteredPlugins cfg.typed (some m) = []
    · rw [handle_eq_of_empty _ _ _ _ _ h1] at hdel
      simp at hdel
    · cases h2 : (buildInventory cfg.excluded cfg.installed).1 with
      | none =>
        rw [handle_eq_of_noRoot _ _ _ _ _ h1 h2] at hdel
        simp at hdel
      | some root0 =>
        cases h3 : mergePlugins validC
            (create_pyproject_from_package
              { root0 with pythonVersions := pythonVersionsJoin cfg.versionInfo }
              (some m)).1 []
            (determine (filteredPlugins cfg.typed (some m))) with
        | error p =>
          rw [handle_eq_of_mergeError _ _ _ _ _ _ _ h1 h2 h3] at hdel
          simp at hdel
        | ok x =>
          cases x with
          | mk mr nr =>
            rw [handle_eq_of_ok _ _ _ _ _ _ _ _ h1 h2 h3] at hdisk
            simp only [Option.some.injEq] at hdisk
            subst hdisk
            exact mergePlugins_ok_spec_key validC _ _ _ _ _ h3 s hs

/-- The synthesis fold leaves a key's binding unchanged when no requirement
carries that name. -/
theorem foldl_upsert_alookup_frozen (l : List Dep) (init : DepSection) (a : String)
    (h : ∀ d ∈ l, d.name ≠ a) :
    alookup (l.foldl (fun sec d => upsert sec d.name (depConstraint d)) init) a =
      alookup init a := by
  induction l generalizing init with
  | nil => rfl
  | cons d rest ih =>
    rw [List.foldl_cons, ih _ (fun q hq => h q (List.mem_cons_of_mem d hq)),
      alookup_upsert_ne _ _ _ _ (fun hc => h d (List.mem_cons_self d rest) hc.symm)]

/-- C6: synthesis never overwrites: with a pre-existing manifest of
arbitrary content, create_pyproject_from_package returns without writing,
and any write handle performs is the single merge write computed directly
from the pre-existing content. -/
theorem synthesis_noop_on_existing (cfg : Config)
    (determine : List String → List PluginSpec) (validC : String → Bool)
    (delegate : Manifest → List String → Bool → Int) (pkg : RootPkg) (m : Manifest) :
    create_pyproject_from_package pkg (some m) = (m, []) ∧
    ((handle cfg determine validC delegate (some m)).writes = [] ∨
      ∃ m2 ns,
        mergePlugins validC m [] (determine (filteredPlugins cfg.typed (some m))) =
          Except.ok (m2, ns) ∧
        (handle cfg determine validC delegate (some m)).writes = [m2] ∧
        (handle cfg determine validC delegate (some m)).disk = some m2) := by
  refine ⟨rfl, ?_⟩
  by_cases h1 : filteredPlugins cfg.typed (some m) = []
  · rw [handle_eq_of_empty _ _ _ _ _ h1]
    exact Or.inl rfl
  · cases h2 : (buildInventory cfg.excluded cfg.installed).1 with
    | none =>
      rw [handle_eq_of_noRoot _ _ _ _ _ h1 h2]
      exact Or.inl rfl
    | some root0 =>
      cases h3 : mergePlugins validC
          (create_pyproject_from_package
            { root0 with pythonVersions := pythonVersionsJoin cfg.versionInfo }
            (some m)).1 []
          (determine (filteredPlugins cfg.typed (some m))) with
      | error p =>
        rw [handle_eq_of_mergeError _ _ _ _ _ _ _ h1 h2 h3]
        exact Or.inl rfl
      | ok x =>
        cases x with
        | mk m2 ns =>
          rw [handle_eq_of_ok _ _ _ _ _ _ _ _ h1 h2 h3]
          exact Or.inr ⟨m2, ns, h3, rfl, rfl⟩

/-- C7: every delegated run is scoped to exactly the canonical names of the
determined net-new specs in order, the forwarded dry-run flag is the
invocation's, and the delegate's exit status is returned verbatim. -/
theorem delegation_scope_and_exit (cfg : Config)
    (determine : List String → List PluginSpec) (validC : String → Bool)
    (delegate : Manifest → List String → Bool → Int) (disk : Option Manifest)
    (ns : List String) (dr : Bool)
    (h : (handle cfg determine validC delegate disk).delegated = [(ns, dr)]) :
    dr = cfg.dryRun ∧
    ns = (determine (filteredPlugins cfg.typed disk)).map PluginSpec.name ∧
    ∃ m2, (handle cfg determine validC delegate disk).disk = some m2 ∧
      (handle cfg determine validC delegate disk).exit =
        Except.ok (delegate m2 ns cfg.dryRun) := by
  by_cases h1 : filteredPlugins cfg.typed disk = []
  · rw [handle_eq_of_empty _ _ _ _ _ h1] at h
    simp at h
  · cases h2 : (buildInventory cfg.excluded cfg.installed).1 with
    | none =>
      rw [handle_eq_of_noRoot _ _ _ _ _ h1 h2] at h
      simp at h
    | some root0 =>
      cases h3 : mergePlugins validC
          (create_pyproject_from_package
            { root0 with pythonVersions := pythonVersionsJoin cfg.versionInfo } disk).1 []
          (determine (filteredPlugins cfg.typed disk)) with
      | error p =>
        rw [handle_eq_of_mergeError _ _ _ _ _ _ _ h1 h2 h3] at h
        simp at h
      | ok x =>
        cases x with
        | mk m2 ns2 =>
          rw [handle_eq_of_ok _ _ _ _ _ _ _ _ h1 h2 h3] at h
          simp only [List.cons.injEq, Prod.mk.injEq, and_true] at h
          obtain ⟨hns, hdr⟩ := h
          subst hns
          refine ⟨hdr.symm, ?_, m2, ?_, ?_⟩
          · have := mergePlugins_ok_names validC _ _ _ _ _ h3
            simpa using this
          · rw [handle_eq_of_ok _ _ _ _ _ _ _ _ h1 h2 h3]
          · rw [handle_eq_of_ok _ _ _ _ _ _ _ _ h1 h2 h3]

/-- C7 witness: a concrete successful run delegates with scope mkdocs, the
dry-run flag of the invocation, and returns the delegate's status 5. -/
theorem delegation_scope_and_exit_witness :
    false = baseCfg.dryRun ∧
    ["mkdocs"] =
      ((fun _ => [(⟨"mkdocs", [("version", FieldVal.s "^1.0")]⟩ : PluginSpec)])
          (filteredPlugins baseCfg.typed none)).map PluginSpec.name ∧
    ∃ m2, (handle baseCfg
        (fun _ => [(⟨"mkdocs", [("version", FieldVal.s "^1.0")]⟩ : PluginSpec)])
        (fun _ => true) (fun _ _ _ => 5) none).disk = some m2 ∧
      (handle baseCfg
        (fun _ => [(⟨"mkdocs", [("version", FieldVal.s "^1.0")]⟩ : PluginSpec)])
        (fun _ => true) (fun _ _ _ => 5) none).exit =
        Except.ok ((fun _ _ _ => (5 : Int)) m2 ["mkdocs"] baseCfg.dryRun) :=
  delegation_scope_and_exit baseCfg
    (fun _ => [(⟨"mkdocs", [("version", FieldVal.s "^1.0")]⟩ : PluginSpec)])
    (fun _ => true) (fun _ _ _ => 5) none ["mkdocs"] false (by rfl)

/-- C4: the single-field collapse rule: a constraint table whose only field
is version is stored as a plain scalar, never as a structured record — for
synthesized requirement constraints, for merged plugin constraints, and for
every entry of every manifest written by a run that starts with no
manifest. -/
theorem single_version_always_scalar (cfg : Config)
    (determine : List String → List PluginSpec) (validC : String → Bool)
    (delegate : Manifest → List String → Bool → Int) :
    (∀ d : Dep, ∀ x, depConstraint d ≠ ConstraintRepr.structured [("version", x)]) ∧
    (∀ fields x, pluginConstraint fields ≠ ConstraintRepr.structured [("version", x)]) ∧
    (∀ v, pluginConstraint [("version", v)] = ConstraintRepr.scalar v) ∧
    (∀ d : Dep, d.isVcs = false → d.isFile = false → d.isDirectory = false →
      d.markerIsAny = true → d.extras = [] →
      depConstraint d = ConstraintRepr.scalar (FieldVal.s d.prettyConstraint)) ∧
    (∀ w ∈ (handle cfg determine validC delegate none).writes,
      ∀ kv ∈ w.dependencies, ∀ x, kv.2 ≠ ConstraintRepr.structured [("version", x)]) := by
  refine ⟨depConstraint_not_single_version, pluginConstraint_not_single_version,
    fun v => rfl, ?_, ?_⟩
  · intro d h1 h2 h3 h4 h5
    simp [depConstraint, h1, h2, h3, h4, h5, collapseTable]
  · have hsynth : ∀ pkg : RootPkg, ∀ kv ∈ (synthesize pkg).dependencies,
        ∀ x, kv.2 ≠ ConstraintRepr.structured [("version", x)] := by
      intro pkg
      exact @synthDeps_forall
        (fun v => ∀ x, v ≠ ConstraintRepr.structured [("version", x)]) pkg
        (fun x h => ConstraintRepr.noConfusion h)
        (fun d x => depConstraint_not_single_version d x)
    by_cases h1 : filteredPlugins cfg.typed none = []
    · rw [handle_eq_of_empty _ _ _ _ _ h1]
      intro w hw
      cases hw
    · cases h2 : (buildInventory cfg.excluded cfg.installed).1 with
      | none =>
        rw [handle_eq_of_noRoot _ _ _ _ _ h1 h2]
        intro w hw
        cases hw
      | some root0 =>
        cases h3 : mergePlugins validC
            (create_pyproject_from_package
              { root0 with pythonVersions := pythonVersionsJoin cfg.versionInfo } none).1 []
            (determine (filteredPlugins cfg.typed none)) with
        | error p =>
          rw [handle_eq_of_mergeError _ _ _ _ _ _ _ h1 h2 h3]
          intro w hw
          rcases List.mem_singleton.mp hw with h
          rw [h]
          exact hsynth _
        | ok x =>
          cases x with
          | mk m2 ns =>
            rw [handle_eq_of_ok _ _ _ _ _ _ _ _ h1 h2 h3]
            intro w hw
            rcases List.mem_cons.mp hw with h | h
            · rw [h]
              exact hsynth _
            · rcases List.mem_singleton.mp h with h
              rw [h]
              intro kv hkv x
              exact mergePlugins_ok_forall validC
                (fun v => ∀ y, v ≠ ConstraintRepr.structured [("version", y)]) _ _ _ _ _ h3
                (fun kv2 hkv2 y => hsynth _ kv2 hkv2 y)
                (fun p y => pluginConstraint_not_single_version p.fields y) kv hkv x

/-- C9: the environment root resolution prefers a set, non-empty
POETRY_HOME (Python truthiness: an empty override falls back to the system
path); and the synthesized root package's python constraint is the
interpreter version's first three components joined with dots, written into
the python entry of the synthesized dependency section. -/
theorem environment_root_and_python_constraint (sys s : String) (a b c : Nat)
    (rest : List Nat) (cfg : Config) (determine : List String → List PluginSpec)
    (validC : String → Bool) (delegate : Manifest → List String → Bool → Int)
    (root0 : RootPkg) :
    envDir none sys = sys ∧
    (s ≠ "" → envDir (some s) sys = s) ∧
    envDir (some "") sys = sys ∧
    pythonVersionsJoin (a :: b :: c :: rest) =
      toString a ++ "." ++ toString b ++ "." ++ toString c ∧
    (filteredPlugins cfg.typed none ≠ [] →
      (buildInventory cfg.excluded cfg.installed).1 = some root0 →
      (handle cfg determine validC delegate none).writes.head? =
        some (synthesize
          { root0 with pythonVersions := pythonVersionsJoin cfg.versionInfo })) ∧
    (∀ pkg : RootPkg,
      (∃ d ∈ pkg.requires, d.name = "python") ∨
      alookup (synthDeps pkg) "python" =
        some (ConstraintRepr.scalar (FieldVal.s pkg.pythonVersions))) := by
  refine ⟨rfl, ?_, rfl, ?_, ?_, ?_⟩
  · intro h
    show (if s.isEmpty = true then sys else s) = s
    rw [if_neg]
    rw [String.isEmpty_iff]
    exact h
  · simp [pythonVersionsJoin, String.intercalate, String.intercalate.go]
  · intro h1 h2
    cases h3 : mergePlugins validC
        (create_pyproject_from_package
          { root0 with pythonVersions := pythonVersionsJoin cfg.versionInfo } none).1 []
        (determine (filteredPlugins cfg.typed none)) with
    | error p =>
      rw [handle_eq_of_mergeError _ _ _ _ _ _ _ h1 h2 h3]
      rfl
    | ok x =>
      cases x with
      | mk m2 ns =>
        rw [handle_eq_of_ok _ _ _ _ _ _ _ _ h1 h2 h3]
        rfl
  · intro pkg
    by_cases hex : ∃ d ∈ pkg.requires, d.name = "python"
    · exact Or.inl hex
    · refine Or.inr ?_
      push_neg at hex
      unfold synthDeps
      rw [foldl_upsert_alookup_frozen _ _ _ hex, alookup_cons]
      simp

/-- C10: with no pre-existing manifest the already-present check is
skipped: nothing is reported, the determiner receives the full typed
request list, and on a run that reaches delegation every determined spec is
merged under its canonical name; the last spec carrying a given canonical
name fixes that key's final binding, so a spec named like a synthesized
dependency (case-sensitively) overwrites the synthesized constraint. -/
theorem no_manifest_skips_filter (cfg : Config)
    (determine : List String → List PluginSpec) (validC : String → Bool)
    (delegate : Manifest → List String → Bool → Int) :
    (handle cfg determine validC delegate none).report = [] ∧
    (cfg.typed ≠ [] →
      (handle cfg determine validC delegate none).determinedWith = some cfg.typed) ∧
    (∀ ns dr m2, (handle cfg determine validC delegate none).delegated = [(ns, dr)] →
      (handle cfg determine validC delegate none).disk = some m2 →
      (∀ s ∈ determine cfg.typed, s.name ∈ m2.dependencies.map Prod.fst) ∧
      (∀ ps1 s ps2, determine cfg.typed = ps1 ++ s :: ps2 →
        (∀ q ∈ ps2, q.name ≠ s.name) →
        alookup m2.dependencies s.name = some (pluginConstraint s.fields))) := by
  refine ⟨?_, ?_, ?_⟩
  · rw [handle_report]
    rfl
  · intro htyped
    have h1 : filteredPlugins cfg.typed none ≠ [] := htyped
    cases h2 : (buildInventory cfg.excluded cfg.installed).1 with
    | none =>
      rw [handle_eq_of_noRoot _ _ _ _ _ h1 h2]
      rfl
    | some root0 =>
      cases h3 : mergePlugins validC
          (create_pyproject_from_package
            { root0 with pythonVersions := pythonVersionsJoin cfg.versionInfo } none).1 []
          (determine (filteredPlugins cfg.typed none)) with
      | error p =>
        rw [handle_eq_of_mergeError _ _ _ _ _ _ _ h1 h2 h3]
        rfl
      | ok x =>
        cases x with
        | mk m2 ns =>
          rw [handle_eq_of_ok _ _ _ _ _ _ _ _ h1 h2 h3]
          rfl
  · intro ns dr m2 hdel hdisk
    by_cases h1 : filteredPlugins cfg.typed none = []
    · rw [handle_eq_of_empty _ _ _ _ _ h1] at hdel
      simp at hdel
    · cases h2 : (buildInventory cfg.excluded cfg.installed).1 with
      | none =>
        rw [handle_eq_of_noRoot _ _ _ _ _ h1 h2] at hdel
        simp at hdel
      | some root0 =>
        cases h3 : mergePlugins validC
            (create_pyproject_from_package
              { root0 with pythonVersions := pythonVersionsJoin cfg.versionInfo } none).1 []
            (determine (filteredPlugins cfg.typed none)) with
        | error p =>
          rw [handle_eq_of_mergeError _ _ _ _ _ _ _ h1 h2 h3] at hdel
          simp at hdel
        | ok x =>
          cases x with
          | mk mr nr =>
            rw [handle_eq_of_ok _ _ _ _ _ _ _ _ h1 h2 h3] at hdisk
            simp only [Option.some.injEq] at hdisk
            subst hdisk
            constructor
            · intro s hs
              exact mergePlugins_ok_spec_key validC _ _ _ _ _ h3 s hs
            · intro ps1 s2 ps2 hsplit hlast
              have h3b := h3
              have heq : determine (filteredPlugins cfg.typed none) = determine cfg.typed :=
                rfl
              rw [heq, hsplit] at h3b
              exact mergePlugins_ok_alookup_last validC ps1 s2 ps2 _ _ _ _ h3b hlast

/-- A determined spec carrying a malformed version constraint. -/
def badSpec : PluginSpec := ⟨"bad", [("version", FieldVal.s "oops")]⟩

/-- C2 counterexample: with no pre-existing manifest, an invocation whose
request carries a malformed version constraint still fails, but only after
synthesis already wrote a manifest: the write list is non-empty and the
manifest's prior absence is not preserved, refuting the claim as stated. -/
theorem invalid_constraint_after_synthesis_counterexample :
    (handle { baseCfg with typed := ["bad"] } (fun _ => [badSpec]) (fun _ => false)
        (fun _ _ _ => 0) none).exit =
      Except.error (HandleError.invalidConstraint badSpec) ∧
    (handle { baseCfg with typed := ["bad"] } (fun _ => [badSpec]) (fun _ => false)
        (fun _ _ _ => 0) none).writes ≠ [] ∧
    (handle { baseCfg with typed := ["bad"] } (fun _ => [badSpec]) (fun _ => false)
        (fun _ _ _ => 0) none).disk ≠ none := by
  refine ⟨rfl, ?_, ?_⟩
  · intro h
    cases h
  · intro h
    cases h

/-- C2 (amended): for every invocation against a pre-existing manifest in
which some determined request fails constraint validation (and work remains
after filtering), the operation fails with nothing ever written and the
on-disk manifest exactly as before the call; moreover, against a
pre-existing manifest every invocation writes the manifest at most once,
the single post-merge write.  (Without a pre-existing manifest, synthesis
performs an earlier write before constraints are validated, as the
counterexample shows.) -/
theorem invalid_constraint_aborts_unwritten (cfg : Config)
    (determine : List String → List PluginSpec) (validC : String → Bool)
    (delegate : Manifest → List String → Bool → Int) (m : Manifest)
    (h1 : filteredPlugins cfg.typed (some m) ≠ [])
    (hbad : ∃ p ∈ determine (filteredPlugins cfg.typed (some m)),
        validatePlugin validC p = false) :
    (∃ e, (handle cfg determine validC delegate (some m)).exit = Except.error e) ∧
    (handle cfg determine validC delegate (some m)).writes = [] ∧
    (handle cfg determine validC delegate (some m)).disk = some m ∧
    (handle cfg determine validC delegate (some m)).delegated = [] ∧
    (∀ determine2 validC2 delegate2,
      (handle cfg determine2 validC2 delegate2 (some m)).writes.length ≤ 1) := by
  have hwrites : ∀ determine2 validC2 delegate2,
      (handle cfg determine2 validC2 delegate2 (some m)).writes.length ≤ 1 := by
    intro d2 v2 g2
    by_cases k1 : filteredPlugins cfg.typed (some m) = []
    · rw [handle_eq_of_empty _ _ _ _ _ k1]
      exact Nat.zero_le 1
    · cases k2 : (buildInventory cfg.excluded cfg.installed).1 with
      | none =>
        rw [handle_eq_of_noRoot _ _ _ _ _ k1 k2]
        exact Nat.zero_le 1
      | some root0 =>
        cases k3 : mergePlugins v2
            (create_pyproject_from_package
              { root0 with pythonVersions := pythonVersionsJoin cfg.versionInfo }
              (some m)).1 []
            (d2 (filteredPlugins cfg.typed (some m))) with
        | error p =>
          rw [handle_eq_of_mergeError _ _ _ _ _ _ _ k1 k2 k3]
          exact Nat.zero_le 1
        | ok x =>
          cases x with
          | mk m2 ns =>
            rw [handle_eq_of_ok _ _ _ _ _ _ _ _ k1 k2 k3]
            exact Nat.le_refl 1
  cases h2 : (buildInventory cfg.excluded cfg.installed).1 with
  | none =>
    rw [handle_eq_of_noRoot _ _ _ _ _ h1 h2]
    exact ⟨⟨HandleError.rootPackageMissing, rfl⟩, rfl, rfl, rfl, hwrites⟩
  | some root0 =>
    obtain ⟨q, hq⟩ := mergePlugins_error_of_invalid validC
      (determine (filteredPlugins cfg.typed (some m)))
      (create_pyproject_from_package
        { root0 with pythonVersions := pythonVersionsJoin cfg.versionInfo } (some m)).1
      [] hbad
    rw [handle_eq_of_mergeError _ _ _ _ _ _ _ h1 h2 hq]
    exact ⟨⟨HandleError.invalidConstraint q, rfl⟩, rfl, rfl, rfl, hwrites⟩

/-- C2 witness: a malformed request against a manifest that already
declares mkdocs fails with nothing written and the manifest intact. -/
theorem invalid_constraint_aborts_unwritten_witness :
    (handle { baseCfg with typed := ["bad"] } (fun _ => [badSpec]) (fun _ => false)
        (fun _ _ _ => 0) (some mkdocsManifest)).writes = [] ∧
    (handle { baseCfg with typed := ["bad"] } (fun _ => [badSpec]) (fun _ => false)
        (fun _ _ _ => 0) (some mkdocsManifest)).disk = some mkdocsManifest := by
  have h := invalid_constraint_aborts_unwritten { baseCfg with typed := ["bad"] }
    (fun _ => [badSpec]) (fun _ => false) (fun _ _ _ => 0) mkdocsManifest (by decide)
    ⟨badSpec, by decide, rfl⟩
  exact ⟨h.2.1, h.2.2.1⟩

/-- The determined spec for the request string mkdocs@^1.0. -/
def mkdocsAtSpec : PluginSpec := ⟨"mkdocs", [("version", FieldVal.s "^1.0")]⟩

/-- The invocation whose single request is typed with an inline
constraint. -/
def cfgAtReq : Config := { baseCfg with typed := ["mkdocs@^1.0"] }

/-- C3 counterexample: the request mkdocs@^1.0 run twice from a clean
environment: the second invocation's already-present report is empty
(the typed string is compared against the stored canonical key mkdocs and
does not match) and the second invocation delegates again instead of
stopping, refuting the claim's "second invocation reports the request as
already present". -/
theorem idempotent_report_counterexample :
    (handle cfgAtReq (fun _ => [mkdocsAtSpec]) (fun _ => true) (fun _ _ _ => 0)
        (handle cfgAtReq (fun _ => [mkdocsAtSpec]) (fun _ => true) (fun _ _ _ => 0)
          none).disk).report = [] ∧
    (handle cfgAtReq (fun _ => [mkdocsAtSpec]) (fun _ => true) (fun _ _ _ => 0)
        (handle cfgAtReq (fun _ => [mkdocsAtSpec]) (fun _ => true) (fun _ _ _ => 0)
          none).disk).delegated ≠ [] := by
  refine ⟨rfl, ?_⟩
  intro h
  cases h

/-- C3 (amended): merging is idempotent across invocations for requests the
determiner resolves elementwise to canonical names that match the typed
names case-insensitively (e.g. bare-name requests): if a first invocation
exits successfully, a second invocation with the same request leaves the
manifest exactly as the first left it, writes nothing, exits 0, and reports
every requested name as already present.  (A request typed with an inline
constraint escapes the textual already-present check, as the counterexample
shows.) -/
theorem merge_idempotent_across_invocations (cfg : Config) (validC : String → Bool)
    (delegate : Manifest → List String → Bool → Int) (disk : Option Manifest)
    (det1 : String → PluginSpec)
    (hname : ∀ t, lowerStr (det1 t).name = lowerStr t) (e : Int)
    (hok : (handle cfg (fun l => l.map det1) validC delegate disk).exit = Except.ok e) :
    (handle cfg (fun l => l.map det1) validC delegate
        (handle cfg (fun l => l.map det1) validC delegate disk).disk).disk =
      (handle cfg (fun l => l.map det1) validC delegate disk).disk ∧
    (handle cfg (fun l => l.map det1) validC delegate
        (handle cfg (fun l => l.map det1) validC delegate disk).disk).writes = [] ∧
    (handle cfg (fun l => l.map det1) validC delegate
        (handle cfg (fun l => l.map det1) validC delegate disk).disk).exit =
      Except.ok 0 ∧
    (∀ t ∈ cfg.typed, t ∈ (handle cfg (fun l => l.map det1) validC delegate
        (handle cfg (fun l => l.map det1) validC delegate disk).disk).report) := by
  by_cases h1 : filteredPlugins cfg.typed disk = []
  · have hdisk1 : (handle cfg (fun l => l.map det1) validC delegate disk).disk = disk := by
      rw [handle_eq_of_empty _ _ _ _ _ h1]
    rw [hdisk1]
    rw [handle_eq_of_empty _ _ _ _ _ h1]
    refine ⟨rfl, rfl, rfl, ?_⟩
    intro t ht
    cases disk with
    | none =>
      have htyped : cfg.typed = [] := h1
      rw [htyped] at ht
      cases ht
    | some m =>
      have hall := (filtered_eq_nil_iff cfg.typed m).mp h1
      exact mem_report_of_match cfg.typed m t ht (hall t ht)
  · cases h2 : (buildInventory cfg.excluded cfg.installed).1 with
    | none =>
      rw [handle_eq_of_noRoot _ _ _ _ _ h1 h2] at hok
      cases hok
    | some root0 =>
      cases h3 : mergePlugins validC
          (create_pyproject_from_package
            { root0 with pythonVersions := pythonVersionsJoin cfg.versionInfo } disk).1 []
          ((fun l => l.map det1) (filteredPlugins cfg.typed disk)) with
      | error p =>
        rw [handle_eq_of_mergeError _ _ _ _ _ _ _ h1 h2 h3] at hok
        cases hok
      | ok x =>
        cases x with
        | mk m2 ns =>
          have hdisk1 :
              (handle cfg (fun l => l.map det1) validC delegate disk).disk = some m2 := by
            rw [handle_eq_of_ok _ _ _ _ _ _ _ _ h1 h2 h3]
          have hmatch : ∀ t ∈ cfg.typed,
              ∃ k ∈ m2.dependencies.map Prod.fst, lowerStr k = lowerStr t := by
            intro t ht
            by_cases hf : t ∈ filteredPlugins cfg.typed disk
            · refine ⟨(det1 t).name, ?_, hname t⟩
              exact mergePlugins_ok_spec_key validC _ _ _ _ _ h3 (det1 t)
                (List.mem_map.mpr ⟨t, hf, rfl⟩)
            · cases disk with
              | none => exact absurd ht hf
              | some m =>
                obtain ⟨k, hk, hkl⟩ := match_of_not_filtered cfg.typed m t ht hf
                exact ⟨k, mergePlugins_ok_keys_mono validC _ _ _ _ _ h3 k hk, hkl⟩
          have h1b : filteredPlugins cfg.typed (some m2) = [] :=
            (filtered_eq_nil_iff cfg.typed m2).mpr hmatch
          rw [hdisk1]
          rw [handle_eq_of_empty _ _ _ _ _ h1b]
          refine ⟨rfl, rfl, rfl, ?_⟩
          intro t ht
          exact mem_report_of_match cfg.typed m2 t ht (hmatch t ht)

/-- C3 witness: a bare-name request run twice: the second invocation leaves
the manifest as the first wrote it and exits 0. -/
theorem merge_idempotent_across_invocations_witness :
    (handle baseCfg
        (fun l => l.map (fun t => (⟨t, [("version", FieldVal.s "1.0")]⟩ : PluginSpec)))
        (fun _ => true) (fun _ _ _ => 0)
        (handle baseCfg
          (fun l => l.map (fun t => (⟨t, [("version", FieldVal.s "1.0")]⟩ : PluginSpec)))
          (fun _ => true) (fun _ _ _ => 0) none).disk).writes = [] ∧
    (handle baseCfg
        (fun l => l.map (fun t => (⟨t, [("version", FieldVal.s "1.0")]⟩ : PluginSpec)))
        (fun _ => true) (fun _ _ _ => 0)
        (handle baseCfg
          (fun l => l.map (fun t => (⟨t, [("version", FieldVal.s "1.0")]⟩ : PluginSpec)))
          (fun _ => true) (fun _ _ _ => 0) none).disk).exit = Except.ok 0 := by
  have h := merge_idempotent_across_invocations baseCfg (fun _ => true) (fun _ _ _ => 0)
    none (fun t => (⟨t, [("version", FieldVal.s "1.0")]⟩ : PluginSpec))
    (fun t => rfl) 0 (by rfl)
  exact ⟨h.2.1, h.2.2.1⟩

end PluginAdd
